import Mathlib

/-!
# ModernCPP_Notes: `example.cpp`

A shallow embedding of the computational parts of `src/example.cpp` and the
properties of them that the specification states.

Conventions of the embedding

* A C++ `int` is a mathematical integer kept in the signed 32-bit range, a
  `long long` one kept in the signed 64-bit range.  Where the source multiplies
  or increments, the result is brought back into the range of its type with
  `wrap32` / `wrap64` (two's complement), or, inside an immediate (`consteval`)
  function, reported as `Outcome.overflow`, since an overflowing evaluation is
  not a constant expression.
* Loops whose trip count is not bounded by their syntax take a `fuel` argument;
  running out of fuel is a separate, visible outcome and every statement that a
  function returns a value gives the fuel that suffices.
-/

namespace ModernCpp

/-! ## Machine integers -/

/-- Two's-complement reading of an integer in a signed type of `w` bits. -/
def wrapSigned (w : Nat) (x : Int) : Int :=
  (x + 2 ^ (w - 1)) % 2 ^ w - 2 ^ (w - 1)

/-- Value of an arithmetic result stored in an `int`. -/
def wrap32 (x : Int) : Int := wrapSigned 32 x

/-- Value of an arithmetic result stored in a `long long`. -/
def wrap64 (x : Int) : Int := wrapSigned 64 x

/-- The value is representable in an `int`. -/
def fits32 (x : Int) : Prop := -2 ^ 31 ≤ x ∧ x < 2 ^ 31

/-- The value is representable in a `long long`. -/
def fits64 (x : Int) : Prop := -2 ^ 63 ≤ x ∧ x < 2 ^ 63

instance (x : Int) : Decidable (fits32 x) := by unfold fits32; exact inferInstance

instance (x : Int) : Decidable (fits64 x) := by unfold fits64; exact inferInstance

/-! ## Constants: `factorial_constexpr` (lines 63-70) -/

/-- The `for (int i = 2; i <= n; ++i) result *= i;` loop of `factorial_constexpr`,
started in the state `(i, result)`.  One unit of fuel is one evaluation of the
loop condition. -/
def factorial_loop : Nat → Int → Int → Int → Option Int
  | 0, _, _, _ => none
  | fuel + 1, n, i, result =>
    if i ≤ n then factorial_loop fuel n (wrap32 (i + 1)) (wrap32 (result * i))
    else some result

/-- Source:
```
constexpr int factorial_constexpr(int n) {
    if (n <= 1) return 1;
    int result = 1;
    for (int i = 2; i <= n; ++i) { result *= i; }
    return result;
}
```
-/
def factorial_constexpr (fuel : Nat) (n : Int) : Option Int :=
  if n ≤ 1 then some 1 else factorial_loop fuel n 2 1

/-! ## Control flow: `ipow_ct` and the `ipow` lambda (lines 285-336) -/

/-- Result of evaluating an immediate (`consteval`) function: a value, an
arithmetic overflow (the evaluation is then not a constant expression and the
program is rejected), or the loop budget of the model running out. -/
inductive Outcome where
  | value (v : Int)
  | overflow
  | outOfFuel
  deriving DecidableEq, Repr

/-- The `while (exp)` loop of `ipow_ct` in the state `(result, base, exp)`, with
`base` and `exp` of type `int` and `result` of type `long long`, as in the call
`ipow(2, 10)`:
```
while (exp) {
    if (exp & 1) result *= base;
    exp >>= 1;
    base *= base;
}
return result;
```
-/
def ipow_ct_loop : Nat → Int → Int → Int → Outcome
  | 0, _, _, _ => Outcome.outOfFuel
  | fuel + 1, result, base, exp =>
    if exp = 0 then Outcome.value result
    else
      let result1 := if Int.land exp 1 ≠ 0 then result * base else result
      if ¬ fits64 result1 then Outcome.overflow
      else
        let base1 := base * base
        if ¬ fits32 base1 then Outcome.overflow
        else ipow_ct_loop fuel result1 base1 (exp >>> 1)

/-- Source:
```
consteval auto ipow_ct(auto base, auto exp) {
    if (base == 0) return 0LL;
    long long result = 1;
    while (exp) { ... }
    return result;
};
```
-/
def ipow_ct (fuel : Nat) (base exp : Int) : Outcome :=
  if base = 0 then Outcome.value 0 else ipow_ct_loop fuel 1 base exp

/-- The run-time alternative of the `ipow` lambda,
`std::pow(static_cast<double>(base), static_cast<double>(exp))`, on arguments
and results that a `double` holds exactly: the mathematical power, where
`pow(x, 0)` is `1` for every `x`, zero included. -/
def ipow_runtime (base : Int) (exp : Nat) : Int := base ^ exp

/-! ## Lambdas: the integral branch of `Pow` (lines 404-414) -/

/-- The loop of the integral branch of `Pow` in the state `(result, b, e)`, with
`b` and `e` of type `int` (arithmetic modulo `2^32`) and `result` of type
`long long` (modulo `2^64`):
```
while (e) {
    if (e & 1) result *= b;
    e >>= 1;
    b *= b;
}
return result;
```
-/
def Pow_loop : Nat → Int → Int → Int → Option Int
  | 0, _, _, _ => none
  | fuel + 1, result, b, e =>
    if e = 0 then some result
    else
      Pow_loop fuel (if Int.land e 1 ≠ 0 then wrap64 (result * b) else result)
        (wrap32 (b * b)) (e >>> 1)

/-- Source, for `base` and `exponent` of type `int`:
```
long long result = 1;
auto b = base;
auto e = exponent;
while (e) { ... }
return result;
```
-/
def Pow (fuel : Nat) (base exponent : Int) : Option Int :=
  Pow_loop fuel 1 base exponent

/-! ## Literals (lines 138-175) -/

/-- The digit separator of C++14, the single quote. -/
def digitSeparator : Char := Char.ofNat 39

/-- Value of one digit of an integer literal; hexadecimal digits included. -/
def digitValue (c : Char) : Nat :=
  if '0' ≤ c ∧ c ≤ '9' then c.toNat - '0'.toNat
  else if 'a' ≤ c ∧ c ≤ 'f' then c.toNat - 'a'.toNat + 10
  else if 'A' ≤ c ∧ c ≤ 'F' then c.toNat - 'A'.toNat + 10
  else 0

/-- Value of the digit sequence of an integer literal in the given radix, read
left to right; digit separators are ignored when the value is determined. -/
def digitsValue (radix : Nat) (digits : List Char) : Nat :=
  digits.foldl (fun acc c => if c = digitSeparator then acc else acc * radix + digitValue c) 0

/-- Source: `int binary_literal = 0b1101'0101;`. -/
def binary_literal : Int := wrap32 (digitsValue 2 "1101'0101".toList)

/-- Source: `int hex_literal = 0xFF'EE;`. -/
def hex_literal : Int := wrap32 (digitsValue 16 "FF'EE".toList)

/-- Source: `long long dec_sep = 1'234'567'890LL;`. -/
def dec_sep : Int := wrap64 (digitsValue 10 "1'234'567'890".toList)

/-- A `std::chrono::duration` with an integral representation: `count` ticks,
one tick lasting `periodNum / periodDen` seconds. -/
structure Duration where
  count : Int
  periodNum : Nat
  periodDen : Nat
  deriving DecidableEq, Repr

/-- The literal operator `min` of `std::chrono_literals`: ticks of 60 seconds. -/
def Duration.minutes (n : Nat) : Duration := ⟨n, 60, 1⟩

/-- The literal operator `s` of `std::chrono_literals`: ticks of one second. -/
def Duration.seconds (n : Nat) : Duration := ⟨n, 1, 1⟩

/-- Tick count of `d` after conversion to ticks of `num / den` seconds, the
quotient truncated toward zero as in `std::chrono::duration_cast`. -/
def Duration.countIn (d : Duration) (num den : Nat) : Int :=
  Int.tdiv (d.count * ((d.periodNum * den : Nat) : Int)) ((d.periodDen * num : Nat) : Int)

/-- The `operator+` of two durations: both operands are converted to their common
type, whose tick is the greatest common divisor of the two ticks, and the counts
are added. -/
def Duration.add (a b : Duration) : Duration :=
  let num := Nat.gcd a.periodNum b.periodNum
  let den := Nat.lcm a.periodDen b.periodDen
  ⟨a.countIn num den + b.countIn num den, num, den⟩

/-- The conversion `std::chrono::duration_cast<std::chrono::seconds>(d)`. -/
def duration_cast_seconds (d : Duration) : Duration := ⟨d.countIn 1 1, 1, 1⟩

/-- Source: `auto duration_seconds = 5min + 30s;`. -/
def duration_seconds : Duration := (Duration.minutes 5).add (Duration.seconds 30)

/-! ## Templates: `sum_variadic` (lines 670-679) -/

/-- An argument of arithmetic type: an `int`, or a `double` given by the rational
number it denotes.  Addition of doubles is modelled as exact: that is the value
binary64 addition returns whenever the exact sum is representable, as it is at
every step of the calls evaluated below. -/
inductive Num where
  | int (v : Int)
  | dbl (v : ℚ)
  deriving DecidableEq, Repr

/-- The mathematical value of an argument. -/
def Num.toRat : Num → ℚ
  | Num.int v => (v : ℚ)
  | Num.dbl v => v

/-- Conversion of a `double` to `int`: the fractional part is discarded. -/
def truncToInt (q : ℚ) : Int := Int.tdiv q.num (q.den : Int)

/-- The built-in `+` after the usual arithmetic conversions: `int + int` is an
`int`, every other combination is a `double`. -/
def Num.add : Num → Num → Num
  | Num.int a, Num.int b => Num.int (wrap32 (a + b))
  | Num.int a, Num.dbl b => Num.dbl ((a : ℚ) + b)
  | Num.dbl a, Num.int b => Num.dbl (a + (b : ℚ))
  | Num.dbl a, Num.dbl b => Num.dbl (a + b)

/-- Conversion of the returned expression to the declared return type `T`, the
type of `head`. -/
def Num.convertLike : Num → Num → Num
  | Num.int _, Num.int v => Num.int v
  | Num.int _, Num.dbl v => Num.int (truncToInt v)
  | Num.dbl _, Num.int v => Num.dbl (v : ℚ)
  | Num.dbl _, Num.dbl v => Num.dbl v

/-- Source:
```
template<typename T>
T sum_variadic(T value) { return value; }

template<typename T, typename... Ts>
T sum_variadic(T head, Ts... tail) { return head + sum_variadic(tail...); }
```
The argument pack is the first argument and the list of the remaining ones. -/
def sum_variadic : Num → List Num → Num
  | value, [] => value
  | head, next :: tail => Num.convertLike head (Num.add head (sum_variadic next tail))

/-- The sum of all the arguments of a call. -/
def argumentSum (head : Num) (tail : List Num) : ℚ :=
  head.toRat + (tail.map Num.toRat).sum

/-- Source:
```
template<typename... Ts>
auto sum_fold(Ts... args) { return (args + ...); }
```
a right fold of the built-in `+`, returned in the type of the sum. -/
def sum_fold : Num → List Num → Num
  | value, [] => value
  | head, next :: tail => Num.add head (sum_fold next tail)

/-! ## The driver: `main` (lines 724-781) -/

/-- The part of the program state that outlives a statement of `main`: the
`constinit` global `ci_value`, the thread-local counter of `test_other_parts`
and the text written to standard output so far. -/
structure State where
  ci_value : Int
  tls_counter : Int
  out : List String

/-- Source: `constexpr int ce_value = 5;`. -/
def ce_value : Int := 5

/-- The state in which `main` is entered: `constinit int ci_value = ce_value;`,
the thread-local counter at its initializer `0`, nothing printed yet. -/
def initialState : State := ⟨ce_value, 0, []⟩

/-- The statements of `main` other than `ci_value += 1;` and `return 0;`, in
source order: the output statements and the calls of the demonstration
routines. -/
inductive Action where
  | cout_MESSAGE
  | LOG_starting
  | test_nullptr_overloads
  | cout_add_constexpr
  | cout_factorial_constexpr
  | cout_identity_lambda
  | cout_B_foo
  | cout_ci_value
  | cout_immediate_add
  | cout_power
  | cout_binary_literal
  | cout_hex_literal
  | cout_dec_sep
  | cout_str
  | cout_html
  | cout_comp
  | cout_duration_seconds
  | cout_year_day
  | cout_deg
  | test_uniform_initialization
  | test_aggregate_initialization
  | test_designated_initializers
  | test_type_inference
  | test_control_flow
  | test_lambdas
  | test_other_parts
  | test_object_oriented
  | test_templates
  | test_deprecated_features
  | LOG_completed
  deriving DecidableEq, Repr

/-- Source: `ci_value += 1; // allowed`. -/
def ci_value_increment (s : State) : State :=
  { s with ci_value := wrap32 (s.ci_value + 1) }

/-- Source: the body of `int main()`.  The effect of every output statement and
of every demonstration routine on the state is given by `run`, an arbitrary
function; the result is the final state and the returned status. -/
def main (run : Action → State → State) (s : State) : State × Int :=
  let s := run Action.cout_MESSAGE s
  let s := run Action.LOG_starting s
  -- Constants testing
  let s := run Action.test_nullptr_overloads s
  let s := run Action.cout_add_constexpr s
  let s := run Action.cout_factorial_constexpr s
  let s := run Action.cout_identity_lambda s
  let s := run Action.cout_B_foo s
  let s := ci_value_increment s
  let s := run Action.cout_ci_value s
  let s := run Action.cout_immediate_add s
  let s := run Action.cout_power s
  -- Literals testing
  let s := run Action.cout_binary_literal s
  let s := run Action.cout_hex_literal s
  let s := run Action.cout_dec_sep s
  let s := run Action.cout_str s
  let s := run Action.cout_html s
  let s := run Action.cout_comp s
  let s := run Action.cout_duration_seconds s
  let s := run Action.cout_year_day s
  let s := run Action.cout_deg s
  -- Initialization testing
  let s := run Action.test_uniform_initialization s
  let s := run Action.test_aggregate_initialization s
  let s := run Action.test_designated_initializers s
  -- Type inference testing
  let s := run Action.test_type_inference s
  -- Control-flow testing
  let s := run Action.test_control_flow s
  -- Lambdas testing
  let s := run Action.test_lambdas s
  -- Other interesting parts
  let s := run Action.test_other_parts s
  -- Object-oriented testing
  let s := run Action.test_object_oriented s
  -- Templates testing
  let s := run Action.test_templates s
  -- Deprecated features testing
  let s := run Action.test_deprecated_features s
  let s := run Action.LOG_completed s
  (s, 0)

/-- The statements of `main` that precede `ci_value += 1;`, in source order. -/
def statementsBeforeIncrement : List Action :=
  [Action.cout_MESSAGE, Action.LOG_starting, Action.test_nullptr_overloads,
    Action.cout_add_constexpr, Action.cout_factorial_constexpr, Action.cout_identity_lambda,
    Action.cout_B_foo]

/-- The statements of `main` between `ci_value += 1;` and `return 0;`, in source
order. -/
def statementsAfterIncrement : List Action :=
  [Action.cout_ci_value, Action.cout_immediate_add, Action.cout_power,
    Action.cout_binary_literal, Action.cout_hex_literal, Action.cout_dec_sep, Action.cout_str,
    Action.cout_html, Action.cout_comp, Action.cout_duration_seconds, Action.cout_year_day,
    Action.cout_deg, Action.test_uniform_initialization, Action.test_aggregate_initialization,
    Action.test_designated_initializers, Action.test_type_inference, Action.test_control_flow,
    Action.test_lambdas, Action.test_other_parts, Action.test_object_oriented,
    Action.test_templates, Action.test_deprecated_features, Action.LOG_completed]

/-- The name of a statement of `main`, as it is written in `Action`. -/
def Action.name : Action → String
  | Action.cout_MESSAGE => "cout_MESSAGE"
  | Action.LOG_starting => "LOG_starting"
  | Action.test_nullptr_overloads => "test_nullptr_overloads"
  | Action.cout_add_constexpr => "cout_add_constexpr"
  | Action.cout_factorial_constexpr => "cout_factorial_constexpr"
  | Action.cout_identity_lambda => "cout_identity_lambda"
  | Action.cout_B_foo => "cout_B_foo"
  | Action.cout_ci_value => "cout_ci_value"
  | Action.cout_immediate_add => "cout_immediate_add"
  | Action.cout_power => "cout_power"
  | Action.cout_binary_literal => "cout_binary_literal"
  | Action.cout_hex_literal => "cout_hex_literal"
  | Action.cout_dec_sep => "cout_dec_sep"
  | Action.cout_str => "cout_str"
  | Action.cout_html => "cout_html"
  | Action.cout_comp => "cout_comp"
  | Action.cout_duration_seconds => "cout_duration_seconds"
  | Action.cout_year_day => "cout_year_day"
  | Action.cout_deg => "cout_deg"
  | Action.test_uniform_initialization => "test_uniform_initialization"
  | Action.test_aggregate_initialization => "test_aggregate_initialization"
  | Action.test_designated_initializers => "test_designated_initializers"
  | Action.test_type_inference => "test_type_inference"
  | Action.test_control_flow => "test_control_flow"
  | Action.test_lambdas => "test_lambdas"
  | Action.test_other_parts => "test_other_parts"
  | Action.test_object_oriented => "test_object_oriented"
  | Action.test_templates => "test_templates"
  | Action.test_deprecated_features => "test_deprecated_features"
  | Action.LOG_completed => "LOG_completed"

/-- A concrete `run` that records what is executed: every statement appends its
name to the output, and `test_other_parts` also performs its
`tls_counter += 1;`.  No statement touches `ci_value`. -/
def recordingRun (a : Action) (s : State) : State :=
  { s with
    tls_counter := if a = Action.test_other_parts then wrap32 (s.tls_counter + 1)
      else s.tls_counter
    out := s.out ++ [a.name] }

/-! ## Proofs -/

/-! ### `factorial_constexpr` -/

theorem factorial_loop_fuel_mono (k : Nat) :
    ∀ (fuel : Nat) (n i result v : Int),
      factorial_loop fuel n i result = some v →
      factorial_loop (fuel + k) n i result = some v := by
  intro fuel
  induction fuel with
  | zero => intro n i result v h; simp [factorial_loop] at h
  | succ f ih =>
    intro n i result v h
    rw [Nat.add_right_comm]
    unfold factorial_loop at h ⊢
    by_cases hi : i ≤ n
    · rw [if_pos hi] at h ⊢
      exact ih _ _ _ _ h
    · rw [if_neg hi] at h ⊢
      exact h

theorem factorial_constexpr_fuel_mono (fuel k : Nat) (n v : Int)
    (h : factorial_constexpr fuel n = some v) :
    factorial_constexpr (fuel + k) n = some v := by
  unfold factorial_constexpr at h ⊢
  by_cases hn : n ≤ 1
  · rw [if_pos hn] at h ⊢; exact h
  · rw [if_neg hn] at h ⊢; exact factorial_loop_fuel_mono k _ _ _ _ _ h

theorem factorial_constexpr_small (m : Nat) (hm : m ≤ 12) :
    factorial_constexpr m (m : Int) = some ((Nat.factorial m : Nat) : Int) := by
  interval_cases m <;> decide

/-- C1: `factorial_constexpr` computes the factorial.  For every `n` with
`0 ≤ n ≤ 12` the call returns `n!` (as soon as the fuel covers the `n` loop-condition
evaluations), and for every `n ≤ 1`, negative `n` included, it returns `1`
whatever the fuel. -/
theorem factorial_constexpr_spec (fuel : Nat) (n : Int) :
    (0 ≤ n → n ≤ 12 → n ≤ fuel →
        factorial_constexpr fuel n = some ((Nat.factorial n.toNat : Nat) : Int)) ∧
      (n ≤ 1 → factorial_constexpr fuel n = some 1) := by
  constructor
  · intro h0 h12 hf
    lift n to ℕ using h0
    have hm : n ≤ 12 := by exact_mod_cast h12
    have hfu : n ≤ fuel := by exact_mod_cast hf
    obtain ⟨k, rfl⟩ := Nat.exists_eq_add_of_le hfu
    rw [Int.toNat_natCast]
    exact factorial_constexpr_fuel_mono n k _ _ (factorial_constexpr_small n hm)
  · intro h1
    simp [factorial_constexpr, h1]

/-- C1, witness: `factorial_constexpr(5)` is `120`, the value `main` prints. -/
theorem factorial_constexpr_spec_witness :
    ((0 : Int) ≤ 5 ∧ (5 : Int) ≤ 12 ∧ (5 : Int) ≤ (5 : Nat)) ∧
      factorial_constexpr 5 5 = some 120 :=
  ⟨by decide, (factorial_constexpr_spec 5 5).1 (by decide) (by decide) (by decide)⟩

/-! ### Machine integers and binary exponentiation -/

theorem wrap32_of_fits {x : Int} (h : fits32 x) : wrap32 x = x := by
  unfold fits32 at h
  unfold wrap32 wrapSigned
  norm_num at h ⊢
  omega

theorem wrap64_of_fits {x : Int} (h : fits64 x) : wrap64 x = x := by
  unfold fits64 at h
  unfold wrap64 wrapSigned
  norm_num at h ⊢
  omega

theorem land_one_natCast (n : Nat) : Int.land (n : Int) 1 = ((n % 2 : Nat) : Int) := by
  show ((Nat.land n 1 : Nat) : Int) = _
  congr 1
  exact Nat.and_one_is_mod n

theorem shiftRight_one_natCast (n : Nat) : ((n : Int) >>> 1) = ((n / 2 : Nat) : Int) := rfl

theorem pow_bit_split (b : Int) (n : Nat) : b ^ n = b ^ (n % 2) * (b * b) ^ (n / 2) := by
  conv_lhs => rw [← Nat.mod_add_div n 2]
  rw [pow_add, pow_mul, pow_two]

/-- One multiplication step of binary exponentiation keeps the product
`result * base ^ n`. -/
theorem square_step (result b : Int) (n : Nat) :
    (if Int.land (n : Int) 1 ≠ 0 then result * b else result) * (b * b) ^ (n / 2)
      = result * b ^ n := by
  rw [land_one_natCast, pow_bit_split b n]
  rcases Nat.mod_two_eq_zero_or_one n with h | h <;> simp [h, mul_assoc]

theorem half_lt_of_lt_pow {n f : Nat} (h : n < 2 ^ (f + 1)) : n / 2 < 2 ^ f := by
  rw [pow_succ] at h
  omega

theorem ipow_ct_loop_exact :
    ∀ (fuel : Nat) (result base : Int) (n : Nat), n < 2 ^ fuel →
      ipow_ct_loop (fuel + 1) result base (n : Int) ≠ Outcome.overflow →
      ipow_ct_loop (fuel + 1) result base (n : Int) = Outcome.value (result * base ^ n) := by
  intro fuel
  induction fuel with
  | zero =>
    intro result base n hn _
    have h0 : n = 0 := by simpa using hn
    subst h0
    simp [ipow_ct_loop]
  | succ f ih =>
    intro result base n hn hov
    by_cases h0 : n = 0
    · subst h0
      simp [ipow_ct_loop]
    · have hne : (n : Int) ≠ 0 := by exact_mod_cast h0
      rw [ipow_ct_loop] at hov ⊢
      simp only [if_neg hne] at hov ⊢
      by_cases h64 : fits64 (if Int.land (n : Int) 1 ≠ 0 then result * base else result)
      · rw [if_neg (not_not.mpr h64)] at hov ⊢
        by_cases h32 : fits32 (base * base)
        · rw [if_neg (not_not.mpr h32), shiftRight_one_natCast] at hov ⊢
          rw [ih _ _ _ (half_lt_of_lt_pow hn) hov, square_step]
        · rw [if_pos h32] at hov
          exact absurd rfl hov
      · rw [if_pos h64] at hov
        exact absurd rfl hov

theorem fits64_of_mul_pos {x p : Int} (hp : 1 ≤ p) (h : fits64 (x * p)) : fits64 x := by
  unfold fits64 at h ⊢
  obtain ⟨hlo, hhi⟩ := h
  rcases le_or_lt 0 x with hx | hx
  · constructor
    · linarith [show (0 : Int) ≤ 2 ^ 63 by norm_num]
    · nlinarith
  · constructor
    · nlinarith
    · linarith [show (0 : Int) < 2 ^ 63 by norm_num]

theorem fits64_zero : fits64 0 := by unfold fits64; norm_num

/-- While every squared base that is still to be multiplied into `result` is
representable in an `int` and the final product is representable in a
`long long`, the loop of `Pow` returns `result * b ^ n`. -/
theorem Pow_loop_exact :
    ∀ (fuel : Nat) (result b : Int) (n : Nat), n < 2 ^ fuel →
      (∀ k : Nat, 2 ^ k ≤ n → fits32 (b ^ 2 ^ k)) →
      fits64 (result * b ^ n) →
      Pow_loop (fuel + 1) result b (n : Int) = some (result * b ^ n) := by
  intro fuel
  induction fuel with
  | zero =>
    intro result b n hn _ _
    have h0 : n = 0 := by simpa using hn
    subst h0
    simp [Pow_loop]
  | succ f ih =>
    intro result b n hn hsq hfit
    by_cases h0 : n = 0
    · subst h0
      simp [Pow_loop]
    · have hne : (n : Int) ≠ 0 := by exact_mod_cast h0
      rw [Pow_loop, if_neg hne, shiftRight_one_natCast]
      -- the multiplication into `result`, when it happens, is exact
      have hres : (if Int.land (n : Int) 1 ≠ 0 then wrap64 (result * b) else result)
          = (if Int.land (n : Int) 1 ≠ 0 then result * b else result) := by
        by_cases hodd : Int.land (n : Int) 1 ≠ 0
        · rw [if_pos hodd, if_pos hodd]
          apply wrap64_of_fits
          by_cases hb : b = 0
          · subst hb; simpa using fits64_zero
          · have hpos : (1 : Int) ≤ (b * b) ^ (n / 2) :=
              Int.add_one_le_iff.mpr (pow_pos (mul_self_pos.mpr hb) _)
            apply fits64_of_mul_pos hpos
            have := square_step result b n
            rw [if_pos hodd] at this
            rw [this]
            exact hfit
        · rw [if_neg hodd, if_neg hodd]
      rw [hres]
      by_cases h1 : n / 2 = 0
      · -- last iteration: the squared base is not used any more
        rw [h1]
        have hstep := square_step result b n
        rw [h1, pow_zero, mul_one] at hstep
        rw [← hstep]
        simp [Pow_loop]
      · have h2 : 2 ^ 1 ≤ n := by omega
        have hbb : wrap32 (b * b) = b * b := by
          apply wrap32_of_fits
          have := hsq 1 h2
          rwa [pow_one, pow_two] at this
        rw [hbb, ih _ _ _ (half_lt_of_lt_pow hn), square_step]
        · intro k hk
          have hk2 : 2 ^ (k + 1) ≤ n := by rw [pow_succ]; omega
          have := hsq (k + 1) hk2
          rwa [pow_succ, mul_comm (2 ^ k) 2, pow_mul, pow_two] at this
        · rw [square_step]
          exact hfit

/-! ### `ipow_ct` -/

/-- Away from `base = 0, exp = 0`, an evaluation of `ipow_ct` that does not
overflow returns the power that the run-time alternative stands for. -/
theorem ipow_ct_exact (fuel : Nat) (base exp : Int) (h0 : 0 ≤ exp)
    (hfuel : exp < 2 ^ fuel) (hne : base ≠ 0 ∨ exp ≠ 0)
    (hov : ipow_ct (fuel + 1) base exp ≠ Outcome.overflow) :
    ipow_ct (fuel + 1) base exp = Outcome.value (ipow_runtime base exp.toNat) := by
  lift exp to ℕ using h0
  have hn : exp < 2 ^ fuel := by exact_mod_cast hfuel
  rw [Int.toNat_natCast]
  unfold ipow_ct ipow_runtime at *
  by_cases hb : base = 0
  · subst hb
    have he : exp ≠ 0 := by
      rcases hne with h | h
      · exact absurd rfl h
      · exact_mod_cast h
    rw [if_pos rfl, zero_pow he]
  · rw [if_neg hb] at hov ⊢
    rw [ipow_ct_loop_exact fuel 1 base exp hn hov, one_mul]

/-- The compile-time call of the source, `ipow(2, 10)`, evaluates to `1024`. -/
theorem ipow_ct_two_ten : ipow_ct 5 2 10 = Outcome.value 1024 := by decide

/-- C2, at the input where the code leaves the claim: `ipow_ct(0, 0)` takes the
early return `if (base == 0) return 0LL;` and yields `0` whatever the fuel,
while the power `0 ^ 0` that `std::pow(0, 0)` stands for is `1`. -/
theorem ipow_ct_zero_zero (fuel : Nat) :
    ipow_ct fuel 0 0 = Outcome.value 0 ∧ ipow_runtime 0 (0 : Int).toNat = 1 ∧
      ipow_ct fuel 0 0 ≠ Outcome.value (ipow_runtime 0 (0 : Int).toNat) := by
  refine ⟨rfl, rfl, ?_⟩
  intro h
  have h1 : Outcome.value 0 = Outcome.value 1 := h
  exact absurd h1 (by decide)

/-! ### `Pow` -/

/-- C3, amended: for an `int` exponent `0 ≤ exponent` and a base such that every
squared base that the loop multiplies into the result, `base ^ 2 ^ k` with
`2 ^ k ≤ exponent`, is representable in a 32-bit `int` and `base ^ exponent` is
representable in a 64-bit `long long`, `Pow(base, exponent)` returns
`base ^ exponent`; 32 evaluations of the loop condition suffice. -/
theorem Pow_spec (fuel : Nat) (base exponent : Int) (hfuel : 32 ≤ fuel)
    (hexp : fits32 exponent) (h0 : 0 ≤ exponent)
    (hsq : ∀ k : Nat, 2 ^ k ≤ exponent → fits32 (base ^ 2 ^ k))
    (hpow : fits64 (base ^ exponent.toNat)) :
    Pow fuel base exponent = some (base ^ exponent.toNat) := by
  lift exponent to ℕ using h0
  obtain ⟨f, rfl⟩ : ∃ f, fuel = f + 1 := ⟨fuel - 1, by omega⟩
  rw [Int.toNat_natCast] at hpow ⊢
  have hlt : exponent < 2 ^ f := by
    have h1 : (exponent : Int) < 2 ^ 31 := hexp.2
    have h2 : exponent < 2 ^ 31 := by exact_mod_cast h1
    have h3 : 2 ^ 31 ≤ 2 ^ f := Nat.pow_le_pow_right (by norm_num) (by omega)
    omega
  unfold Pow
  rw [Pow_loop_exact f 1 base exponent hlt, one_mul]
  · intro k hk
    exact hsq k (by exact_mod_cast hk)
  · rwa [one_mul]

/-- C3, witness: `Pow(2, 8)` is `256`, the value `test_lambdas` prints; the
squared bases multiplied into the result are `2`, `4`, `16` and `256`. -/
theorem Pow_spec_witness :
    (32 ≤ 32 ∧ fits32 8 ∧ (0 : Int) ≤ 8 ∧
        (∀ k : Nat, (2 : Int) ^ k ≤ 8 → fits32 ((2 : Int) ^ 2 ^ k)) ∧
        fits64 ((2 : Int) ^ (8 : Int).toNat)) ∧
      Pow 32 2 8 = some 256 :=
  have hsq : ∀ k : Nat, (2 : Int) ^ k ≤ 8 → fits32 ((2 : Int) ^ 2 ^ k) := by
    intro k hk
    have hk3 : k ≤ 3 := by
      by_contra hcon
      have h4 : 4 ≤ k := by omega
      have h16 : (2 : Int) ^ 4 ≤ 2 ^ k := pow_le_pow_right₀ (by norm_num) h4
      norm_num at h16
      omega
    interval_cases k <;> decide
  ⟨⟨by decide, by decide, by decide, hsq, by decide⟩,
    Pow_spec 32 2 8 (by decide) (by decide) (by decide) hsq (by decide)⟩

/-- C3, counterexample to the claim as stated: `2 ^ 32` is representable in a
`long long`, yet `Pow(2, 32)` returns `0`, because the squared base `65536 * 65536`
is reduced modulo `2 ^ 32` to `0` before it is multiplied into the result. -/
theorem Pow_two_thirtytwo :
    fits32 2 ∧ fits32 32 ∧ (0 : Int) ≤ 32 ∧ fits64 ((2 : Int) ^ (32 : Int).toNat) ∧
      Pow 32 2 32 = some 0 ∧ Pow 32 2 32 ≠ some ((2 : Int) ^ (32 : Int).toNat) := by
  decide

/-! ### `sum_variadic` -/

theorem wrap32_add_wrap32 (a b : Int) : wrap32 (a + wrap32 b) = wrap32 (a + b) := by
  unfold wrap32 wrapSigned
  norm_num
  omega

/-- When every argument is an `int`, `sum_variadic` is the sum of its arguments
in `int` arithmetic. -/
theorem sum_variadic_ints (head : Int) (tail : List Int)
    (hfit : ∀ x ∈ head :: tail, fits32 x) :
    sum_variadic (Num.int head) (tail.map Num.int) = Num.int (wrap32 (head + tail.sum)) := by
  induction tail generalizing head with
  | nil =>
    have h := hfit head (List.mem_cons_self _ _)
    simp [sum_variadic, wrap32_of_fits h]
  | cons next rest ih =>
    have hrest : ∀ x ∈ next :: rest, fits32 x := fun x hx => hfit x (List.mem_cons_of_mem _ hx)
    simp only [List.map_cons, sum_variadic, ih next hrest, Num.add, Num.convertLike,
      List.sum_cons, wrap32_add_wrap32]

/-- C4, at the call of the source: `sum_variadic(1, 2.5, 3)` returns the `int`
`6`, because the sum `1 + 5.5` is converted to the return type `T = int`, while
the sum of the arguments is `6.5`, the value that the fold expression `sum_fold`
returns for the same arguments. -/
theorem sum_variadic_mixed :
    sum_variadic (Num.int 1) [Num.dbl 2.5, Num.int 3] = Num.int 6 ∧
      argumentSum (Num.int 1) [Num.dbl 2.5, Num.int 3] = 6.5 ∧
      sum_fold (Num.int 1) [Num.dbl 2.5, Num.int 3] = Num.dbl 6.5 := by
  have h : ((1 : Int) : ℚ) + ((2.5 : ℚ) + ((3 : Int) : ℚ)) = 13 / 2 := by norm_num
  have ht : truncToInt (13 / 2) = 6 := by
    unfold truncToInt
    norm_num
    rfl
  refine ⟨?_, ?_, ?_⟩
  · simp only [sum_variadic, Num.add, Num.convertLike, h, ht]
  · simp only [argumentSum, Num.toRat, List.map_cons, List.map_nil, List.sum_cons,
      List.sum_nil]
    norm_num
  · simp only [sum_fold, Num.add, h]
    norm_num

/-! ### Literals -/

theorem foldl_digits_filter (radix : Nat) (digits : List Char) :
    ∀ acc : Nat,
      digits.foldl (fun acc c => if c = digitSeparator then acc else acc * radix + digitValue c)
          acc
        = (digits.filter (fun c => decide (c ≠ digitSeparator))).foldl
            (fun acc c => if c = digitSeparator then acc else acc * radix + digitValue c) acc := by
  induction digits with
  | nil => intro acc; rfl
  | cons c cs ih =>
    intro acc
    by_cases hc : c = digitSeparator
    · simp [List.filter, hc, ih]
    · simp [List.filter, hc, ih]

/-- C5: the global literals hold their documented values.  `binary_literal` is
`213`, `hex_literal` is `65518`, `dec_sep` is `1234567890`; removing the digit
separators from any digit sequence leaves its value unchanged; and
`duration_seconds`, converted to seconds, has count `330`. -/
theorem literal_values :
    binary_literal = 213 ∧ hex_literal = 65518 ∧ dec_sep = 1234567890 ∧
      (∀ (radix : Nat) (digits : List Char),
        digitsValue radix digits
          = digitsValue radix (digits.filter (fun c => decide (c ≠ digitSeparator)))) ∧
      (duration_cast_seconds duration_seconds).count = 330 := by
  refine ⟨by decide, by decide, by decide, ?_, by decide⟩
  intro radix digits
  exact foldl_digits_filter radix digits 0

/-! ### `main` -/

theorem foldl_run_ci_value (run : Action → State → State)
    (hrun : ∀ a st, (run a st).ci_value = st.ci_value) (acts : List Action) :
    ∀ s : State, (acts.foldl (fun st a => run a st) s).ci_value = s.ci_value := by
  induction acts with
  | nil => intro s; rfl
  | cons a rest ih => intro s; rw [List.foldl_cons, ih, hrun]

theorem foldl_run_out (run : Action → State → State) (label : Action → String)
    (hrun : ∀ a st, (run a st).out = st.out ++ [label a]) (acts : List Action) :
    ∀ s : State, (acts.foldl (fun st a => run a st) s).out = s.out ++ acts.map label := by
  induction acts with
  | nil => intro s; simp
  | cons a rest ih =>
    intro s
    rw [List.foldl_cons, ih, hrun, List.map_cons, List.append_assoc, List.singleton_append]

/-- C6: `main` executes each of its statements once, in source order, and returns
the status `0`.  For every effect `run` of the output statements and
demonstration routines and every entry state `s`:
the returned status is `0`;
the final state is the one obtained by running the statements before
`ci_value += 1;` in order, then the increment, then the remaining statements in
order;
every statement, so every demonstration routine, occurs exactly once in that
sequence;
when no statement touches `ci_value`, `main` leaves it incremented by one, so
that from the initial state it goes from `5` to `6`;
and when every statement appends one line to the output, the output of `main`
is those lines in source order. -/
theorem main_spec (run : Action → State → State) (s : State) :
    (main run s).2 = 0 ∧
      (main run s).1
        = statementsAfterIncrement.foldl (fun st a => run a st)
            (ci_value_increment
              (statementsBeforeIncrement.foldl (fun st a => run a st) s)) ∧
      (∀ a : Action, (statementsBeforeIncrement ++ statementsAfterIncrement).count a = 1) ∧
      ((∀ a st, (run a st).ci_value = st.ci_value) →
        (main run s).1.ci_value = wrap32 (s.ci_value + 1) ∧
          (main run initialState).1.ci_value = 6) ∧
      (∀ label : Action → String, (∀ a st, (run a st).out = st.out ++ [label a]) →
        (main run s).1.out
          = s.out ++ (statementsBeforeIncrement ++ statementsAfterIncrement).map label) := by
  have hfold : ∀ t : State, (main run t).1
      = statementsAfterIncrement.foldl (fun st a => run a st)
          (ci_value_increment
            (statementsBeforeIncrement.foldl (fun st a => run a st) t)) := fun _ => rfl
  refine ⟨rfl, hfold s, ?_, ?_, ?_⟩
  · intro a
    cases a <;> decide
  · intro hrun
    have hci : ∀ t : State, (main run t).1.ci_value = wrap32 (t.ci_value + 1) := by
      intro t
      rw [hfold t, foldl_run_ci_value run hrun]
      show wrap32 ((statementsBeforeIncrement.foldl (fun st a => run a st) t).ci_value + 1) = _
      rw [foldl_run_ci_value run hrun]
    refine ⟨hci s, ?_⟩
    rw [hci initialState]
    decide
  · intro label hrun
    rw [hfold s, foldl_run_out run label hrun]
    have hinc : ∀ t : State, (ci_value_increment t).out = t.out := fun _ => rfl
    rw [hinc, foldl_run_out run label hrun, List.map_append, List.append_assoc]

/-- C6, witness: with the recording run, entered in the initial state, `main`
returns `0`, leaves `ci_value` at `6` and the thread-local counter at `1`, and has
executed its thirty statements in source order. -/
theorem main_spec_witness :
    ((∀ a st, (recordingRun a st).ci_value = st.ci_value) ∧
        (∀ a st, (recordingRun a st).out = st.out ++ [Action.name a])) ∧
      (main recordingRun initialState).2 = 0 ∧
      (main recordingRun initialState).1.ci_value = 6 ∧
      (main recordingRun initialState).1.tls_counter = 1 ∧
      (main recordingRun initialState).1.out
        = ["cout_MESSAGE", "LOG_starting", "test_nullptr_overloads", "cout_add_constexpr",
            "cout_factorial_constexpr", "cout_identity_lambda", "cout_B_foo", "cout_ci_value",
            "cout_immediate_add", "cout_power", "cout_binary_literal", "cout_hex_literal",
            "cout_dec_sep", "cout_str", "cout_html", "cout_comp", "cout_duration_seconds",
            "cout_year_day", "cout_deg", "test_uniform_initialization",
            "test_aggregate_initialization", "test_designated_initializers",
            "test_type_inference", "test_control_flow", "test_lambdas", "test_other_parts",
            "test_object_oriented", "test_templates", "test_deprecated_features",
            "LOG_completed"] :=
  have hci : ∀ a st, (recordingRun a st).ci_value = st.ci_value := fun _ _ => rfl
  have hout : ∀ a st, (recordingRun a st).out = st.out ++ [Action.name a] := fun _ _ => rfl
  have h := main_spec recordingRun initialState
  ⟨⟨hci, hout⟩, h.1, (h.2.2.2.1 hci).2, by decide, h.2.2.2.2 Action.name hout⟩

end ModernCpp
